import Mathlib

/-!
Verification of the absorbing-Markov-chain analysis and Monte Carlo simulation
in `Simulacion_Modificada_Markov_RACH.ipynb`.

The notebook models a bounded-retry process: a user makes up to three attempts,
each succeeding with probability `p_exito = 0.6`.  It computes absorption
probabilities and the expected number of attempts analytically (fundamental
matrix of the absorbing chain) and cross-checks them with a Monte Carlo
simulation over one million users.

The notebook fixes `p_exito = 0.6` as a module-level constant; every other
line of the computation is generic in that constant, so the embedding takes
the success probability `p` as an explicit parameter and instantiates it at
`3/5` where the concrete notebook values are discussed.  Real arithmetic is
embedded as exact rational arithmetic (`ℚ`).  The pseudo-random draws
`rng.random()` (values in `[0,1)`) are modelled by an explicit stream
`u : ℕ → ℚ` consumed in order, with a cursor recording how many draws have
been consumed, mirroring the advancing state of the seeded generator
`np.random.default_rng(seed=123)`.
-/

namespace RACH

/-- Success probability fixed by the notebook: `p_exito = 0.60`. -/
def p_exito : ℚ := 3 / 5

/-- Failure probability: `p_fallo = 1 - p_exito`. -/
def p_fallo : ℚ := 1 - p_exito

/-- Transient-to-transient sub-matrix `Q` built by the notebook:
`Q = [[0, p_fallo, 0], [0, 0, p_fallo], [0, 0, 0]]`, with the constant
`p_fallo = 1 - p_exito` generalized to `1 - p`. -/
def Qm (p : ℚ) : Matrix (Fin 3) (Fin 3) ℚ :=
  !![0, 1 - p, 0;
     0, 0, 1 - p;
     0, 0, 0]

/-- Transient-to-absorbing sub-matrix `R` built by the notebook:
`R = [[p_exito, 0], [p_exito, 0], [p_exito, p_fallo]]` (column 0 = Success,
column 1 = Failure). -/
def Rm (p : ℚ) : Matrix (Fin 3) (Fin 2) ℚ :=
  !![p, 0;
     p, 0;
     p, 1 - p]

/-- Fundamental matrix `N = np.linalg.inv(I - Q)`.  The inverse of `I - Qm p`
is given here in closed form; the lemmas `one_sub_Qm_mul_Nm` and
`Nm_mul_one_sub_Qm` prove that it is the two-sided inverse, and
`Nm_eq_inv` identifies it with Mathlib's matrix inverse, so this is exactly
the matrix the notebook computes. -/
def Nm (p : ℚ) : Matrix (Fin 3) (Fin 3) ℚ :=
  !![1, 1 - p, (1 - p) ^ 2;
     0, 1, 1 - p;
     0, 0, 1]

/-- Absorption-probability matrix `absorcion = N @ R`. -/
def absorcion (p : ℚ) : Matrix (Fin 3) (Fin 2) ℚ := Nm p * Rm p

/-- `prob_exito_teorica = absorcion[0, 0]`. -/
def prob_exito_teorica (p : ℚ) : ℚ := absorcion p 0 0

/-- `prob_fallo_teorica = absorcion[0, 1]`. -/
def prob_fallo_teorica (p : ℚ) : ℚ := absorcion p 0 1

/-- `intentos_teoricos = N[0] @ np.ones(3)`: expected number of attempts
starting from state 0. -/
def intentos_teoricos (p : ℚ) : ℚ := ∑ j : Fin 3, Nm p 0 j

/-- One simulated user, the notebook function `intento_usuario`: for
`i in range(1, 4)`, if `rng.random() < prob_exito` return `i` (success on the
i-th attempt); after three unsuccessful draws return `0` (failure).  The three
potential draws are the stream values `u 0`, `u 1`, `u 2`, read in order. -/
def intento_usuario (p : ℚ) (u : ℕ → ℚ) : ℕ :=
  if u 0 < p then 1
  else if u 1 < p then 2
  else if u 2 < p then 3
  else 0

/-- Number of draws `intento_usuario` consumes from the generator: the loop
returns at the first draw below `p`, otherwise it consumes all three draws. -/
def draws_used (p : ℚ) (u : ℕ → ℚ) : ℕ :=
  if u 0 < p then 1
  else if u 1 < p then 2
  else 3

/-- Aggregate state of the simulation loop: the counters `exitos`,
`fracasos`, `total_intentos`, plus the position of the pseudo-random
generator in the draw stream. -/
structure SimState where
  exitos : ℕ
  fracasos : ℕ
  total_intentos : ℕ
  cursor : ℕ
deriving DecidableEq

/-- The draw stream as seen by one trial: the global stream `u` starting at
the current generator position `c`. -/
def trialStream (u : ℕ → ℚ) (c : ℕ) : ℕ → ℚ := fun k => u (c + k)

/-- One iteration of the notebook loop:
`resultado = intento_usuario(p_exito)`; if `resultado > 0` then
`exitos += 1; total_intentos += resultado` else
`fracasos += 1; total_intentos += 3`.  The cursor advances by the number of
draws the trial consumed. -/
def runTrial (p : ℚ) (u : ℕ → ℚ) (s : SimState) : SimState :=
  let resultado := intento_usuario p (trialStream u s.cursor)
  if 0 < resultado then
    ⟨s.exitos + 1, s.fracasos, s.total_intentos + resultado,
      s.cursor + draws_used p (trialStream u s.cursor)⟩
  else
    ⟨s.exitos, s.fracasos + 1, s.total_intentos + 3,
      s.cursor + draws_used p (trialStream u s.cursor)⟩

/-- The notebook simulation loop `for _ in range(num_pruebas)`, starting from
all counters zero, run for the given number of trials over the draw
stream `u`. -/
def simulate (p : ℚ) (u : ℕ → ℚ) : ℕ → SimState
  | 0 => ⟨0, 0, 0, 0⟩
  | k + 1 => runTrial p u (simulate p u k)

/-- Modelled from the spec: the notebook hard-codes `maxAttempts = 3`, so the
general-`n` transient sub-matrix demanded by the contract of the analytic
solver is taken from the specification text: entry `Q[i][j]` is `1 - p` when
`j = i + 1` and `0` otherwise.  At `n = 3` this coincides with the notebook
matrix (`genQ_three`). -/
def genQ (n : ℕ) (p : ℚ) : Matrix (Fin n) (Fin n) ℚ :=
  Matrix.of fun i j => if (j : ℕ) = (i : ℕ) + 1 then 1 - p else 0

/-- Modelled from the spec: general-`n` transient-to-absorbing sub-matrix.
Column 0 (Success) is `p` from every transient state; column 1 (Failure) is
`1 - p` from the last transient state only.  At `n = 3` this coincides with
the notebook matrix (`genR_three`). -/
def genR (n : ℕ) (p : ℚ) : Matrix (Fin n) (Fin 2) ℚ :=
  Matrix.of fun i j =>
    if (j : ℕ) = 0 then p else if (i : ℕ) = n - 1 then 1 - p else 0

/-- Modelled from the spec: general-`n` fundamental matrix `N = (I − Q)⁻¹`,
given in closed form (`N[i][j] = (1-p)^(j-i)` for `i ≤ j`, else `0`) and
proved to be the two-sided inverse of `I - genQ n p` in `one_sub_genQ_mul_genN`
and `genN_mul_one_sub_genQ`, hence equal to the matrix inverse
(`genN_eq_inv`). -/
def genN (n : ℕ) (p : ℚ) : Matrix (Fin n) (Fin n) ℚ :=
  Matrix.of fun i j => if (i : ℕ) ≤ (j : ℕ) then (1 - p) ^ ((j : ℕ) - (i : ℕ)) else 0

/-- The closed-form matrix `Nm p` is a right inverse of `I - Qm p`. -/
lemma one_sub_Qm_mul_Nm (p : ℚ) : (1 - Qm p) * Nm p = 1 := by
  ext i j
  fin_cases i <;> fin_cases j <;>
    simp [Qm, Nm, Matrix.mul_apply, Fin.sum_univ_three, Matrix.one_apply,
      Matrix.sub_apply, Matrix.vecHead, Matrix.vecTail] <;> ring

/-- The closed-form matrix `Nm p` is a left inverse of `I - Qm p`. -/
lemma Nm_mul_one_sub_Qm (p : ℚ) : Nm p * (1 - Qm p) = 1 := by
  ext i j
  fin_cases i <;> fin_cases j <;>
    simp [Qm, Nm, Matrix.mul_apply, Fin.sum_univ_three, Matrix.one_apply,
      Matrix.sub_apply, Matrix.vecHead, Matrix.vecTail] <;> ring

/-- `Nm p` is exactly the matrix inverse `np.linalg.inv(I - Q)` that the
notebook computes. -/
lemma Nm_eq_inv (p : ℚ) : (1 - Qm p)⁻¹ = Nm p :=
  Matrix.inv_eq_right_inv (one_sub_Qm_mul_Nm p)

/-- At `n = 3` the spec-modelled transient sub-matrix is the notebook matrix. -/
lemma genQ_three (p : ℚ) : genQ 3 p = Qm p := by
  ext i j
  fin_cases i <;> fin_cases j <;>
    simp [genQ, Qm, Matrix.vecHead, Matrix.vecTail, Fin.ext_iff]

/-- At `n = 3` the spec-modelled absorbing sub-matrix is the notebook matrix. -/
lemma genR_three (p : ℚ) : genR 3 p = Rm p := by
  ext i j
  fin_cases i <;> fin_cases j <;>
    simp [genR, Rm, Matrix.vecHead, Matrix.vecTail, Fin.ext_iff]

/-- At `n = 3` the spec-modelled fundamental matrix is the notebook matrix. -/
lemma genN_three (p : ℚ) : genN 3 p = Nm p := by
  ext i j
  fin_cases i <;> fin_cases j <;>
    norm_num [genN, Nm, Matrix.vecHead, Matrix.vecTail, Fin.ext_iff] <;> decide

/-- Entry formula for `genQ * genN`. -/
lemma genQ_mul_genN (n : ℕ) (p : ℚ) (i j : Fin n) :
    (genQ n p * genN n p) i j =
      if (i : ℕ) + 1 ≤ (j : ℕ) then (1 - p) ^ ((j : ℕ) - (i : ℕ)) else 0 := by
  rw [Matrix.mul_apply]
  by_cases h : (i : ℕ) + 1 < n
  · have hiff : ∀ m : Fin n, ((m : ℕ) = (i : ℕ) + 1) ↔ m = ⟨(i : ℕ) + 1, h⟩ := by
      intro m
      constructor
      · intro hm; exact Fin.ext hm
      · intro hm; subst hm; rfl
    simp only [genQ, genN, Matrix.of_apply, ite_mul, zero_mul, hiff]
    rw [Finset.sum_ite_eq' Finset.univ ((⟨(i : ℕ) + 1, h⟩ : Fin n))]
    simp only [Finset.mem_univ, if_true]
    by_cases hj : (i : ℕ) + 1 ≤ (j : ℕ)
    · have hji : (j : ℕ) - (i : ℕ) = ((j : ℕ) - ((i : ℕ) + 1)) + 1 := by omega
      simp only [hj, if_true, hji, pow_succ]
      ring
    · simp [hj]
  · have hj : ¬ ((i : ℕ) + 1 ≤ (j : ℕ)) := by
      have := j.isLt
      omega
    rw [if_neg hj]
    apply Finset.sum_eq_zero
    intro m _
    have : ¬ ((m : ℕ) = (i : ℕ) + 1) := by
      have := m.isLt
      omega
    simp [genQ, this]

/-- Entry formula for `genN * genQ`: the same as for `genQ * genN`. -/
lemma genN_mul_genQ (n : ℕ) (p : ℚ) (i j : Fin n) :
    (genN n p * genQ n p) i j =
      if (i : ℕ) + 1 ≤ (j : ℕ) then (1 - p) ^ ((j : ℕ) - (i : ℕ)) else 0 := by
  rw [Matrix.mul_apply]
  by_cases h : 1 ≤ (j : ℕ)
  · have hlt : (j : ℕ) - 1 < n := by
      have := j.isLt
      omega
    have hiff : ∀ m : Fin n, ((j : ℕ) = (m : ℕ) + 1) ↔ m = ⟨(j : ℕ) - 1, hlt⟩ := by
      intro m
      constructor
      · intro hm
        apply Fin.ext
        simp only []
        omega
      · intro hm; subst hm; simp; omega
    simp only [genQ, genN, Matrix.of_apply, mul_ite, mul_zero, hiff]
    rw [Finset.sum_ite_eq' Finset.univ ((⟨(j : ℕ) - 1, hlt⟩ : Fin n))]
    simp only [Finset.mem_univ, if_true]
    by_cases hij : (i : ℕ) + 1 ≤ (j : ℕ)
    · have h1 : (i : ℕ) ≤ (j : ℕ) - 1 := by omega
      have h2 : (j : ℕ) - (i : ℕ) = (((j : ℕ) - 1) - (i : ℕ)) + 1 := by omega
      simp only [h1, if_true, hij, h2, pow_succ]
    · have h1 : ¬ ((i : ℕ) ≤ (j : ℕ) - 1) := by omega
      simp [h1, hij]
  · have hj : ¬ ((i : ℕ) + 1 ≤ (j : ℕ)) := by omega
    rw [if_neg hj]
    apply Finset.sum_eq_zero
    intro m _
    have : ¬ ((j : ℕ) = (m : ℕ) + 1) := by omega
    simp [genQ, this]

/-- Common tail: subtracting the strict-upper part from `genN` leaves the
identity matrix. -/
lemma genN_sub_aux (n : ℕ) (p : ℚ) (i j : Fin n) :
    genN n p i j - (if (i : ℕ) + 1 ≤ (j : ℕ) then (1 - p) ^ ((j : ℕ) - (i : ℕ)) else 0)
      = (1 : Matrix (Fin n) (Fin n) ℚ) i j := by
  rw [Matrix.one_apply]
  simp only [genN, Matrix.of_apply]
  by_cases hij : i = j
  · subst hij
    simp
  · have hne : (i : ℕ) ≠ (j : ℕ) := fun hc => hij (Fin.ext hc)
    by_cases hle : (i : ℕ) ≤ (j : ℕ)
    · have h1 : (i : ℕ) + 1 ≤ (j : ℕ) := by omega
      simp [hle, h1, hij]
    · have h1 : ¬ ((i : ℕ) + 1 ≤ (j : ℕ)) := by omega
      simp [hle, h1, hij]

/-- The spec-modelled closed form is a right inverse of `I - genQ n p`. -/
lemma one_sub_genQ_mul_genN (n : ℕ) (p : ℚ) :
    (1 - genQ n p) * genN n p = 1 := by
  ext i j
  rw [Matrix.sub_mul, Matrix.one_mul, Matrix.sub_apply, genQ_mul_genN]
  exact genN_sub_aux n p i j

/-- The spec-modelled closed form is a left inverse of `I - genQ n p`. -/
lemma genN_mul_one_sub_genQ (n : ℕ) (p : ℚ) :
    genN n p * (1 - genQ n p) = 1 := by
  ext i j
  rw [Matrix.mul_sub, Matrix.mul_one, Matrix.sub_apply, genN_mul_genQ]
  exact genN_sub_aux n p i j

/-- `genN n p` is exactly the matrix inverse `(I - Q)⁻¹` of the contract. -/
lemma genN_eq_inv (n : ℕ) (p : ℚ) : (1 - genQ n p)⁻¹ = genN n p :=
  Matrix.inv_eq_right_inv (one_sub_genQ_mul_genN n p)

/-- Row 0, Success column of `B = N R` for the general chain: the geometric
series gives `1 - (1-p)^n`. -/
lemma genB_zero_zero (m : ℕ) (p : ℚ) :
    (genN (m + 1) p * genR (m + 1) p) 0 0 = 1 - (1 - p) ^ (m + 1) := by
  rw [Matrix.mul_apply]
  have hterm : ∀ k : Fin (m + 1),
      genN (m + 1) p 0 k * genR (m + 1) p k 0 = (1 - p) ^ (k : ℕ) * p := by
    intro k
    simp [genN, genR]
  rw [Finset.sum_congr rfl fun k _ => hterm k]
  rw [Fin.sum_univ_eq_sum_range (fun k => (1 - p) ^ k * p) (m + 1)]
  rw [show (∑ k ∈ Finset.range (m + 1), (1 - p) ^ k * p)
        = (∑ k ∈ Finset.range (m + 1), (1 - p) ^ k) * p from (Finset.sum_mul ..).symm]
  have h := geom_sum_mul (1 - p) (m + 1)
  linear_combination -h

/-- Row 0, Failure column of `B = N R` for the general chain: only the last
transient state reaches Failure, giving `(1-p)^n`. -/
lemma genB_zero_one (m : ℕ) (p : ℚ) :
    (genN (m + 1) p * genR (m + 1) p) 0 1 = (1 - p) ^ (m + 1) := by
  rw [Matrix.mul_apply]
  have hiff : ∀ k : Fin (m + 1), ((k : ℕ) = m) ↔ k = Fin.last m := by
    intro k
    constructor
    · intro hk
      exact Fin.ext (by simpa using hk)
    · intro hk
      subst hk
      simp
  have hterm : ∀ k : Fin (m + 1),
      genN (m + 1) p 0 k * genR (m + 1) p k 1 =
        if k = Fin.last m then (1 - p) ^ (k : ℕ) * (1 - p) else 0 := by
    intro k
    simp only [genN, genR, Matrix.of_apply]
    norm_num
    simp only [hiff, mul_ite, mul_zero]
  rw [Finset.sum_congr rfl fun k _ => hterm k]
  rw [Finset.sum_ite_eq' Finset.univ (Fin.last m)]
  simp [Fin.val_last, pow_succ]

/-- Case analysis of one loop iteration: exactly one of the two branches of
the notebook `if resultado > 0` runs net, and it updates the counters as the
source does. -/
lemma runTrial_cases (p : ℚ) (u : ℕ → ℚ) (s : SimState) :
    (0 < intento_usuario p (trialStream u s.cursor) ∧
      runTrial p u s = ⟨s.exitos + 1, s.fracasos,
        s.total_intentos + intento_usuario p (trialStream u s.cursor),
        s.cursor + draws_used p (trialStream u s.cursor)⟩) ∨
    (intento_usuario p (trialStream u s.cursor) = 0 ∧
      runTrial p u s = ⟨s.exitos, s.fracasos + 1, s.total_intentos + 3,
        s.cursor + draws_used p (trialStream u s.cursor)⟩) := by
  by_cases h : 0 < intento_usuario p (trialStream u s.cursor)
  · exact Or.inl ⟨h, by simp [runTrial, h]⟩
  · exact Or.inr ⟨by omega, by simp [runTrial, h]⟩

/-- Each iteration increments exactly one of the success and failure
counters. -/
lemma runTrial_counter_sum (p : ℚ) (u : ℕ → ℚ) (s : SimState) :
    (runTrial p u s).exitos + (runTrial p u s).fracasos
      = s.exitos + s.fracasos + 1 := by
  rcases runTrial_cases p u s with ⟨_, h⟩ | ⟨_, h⟩ <;> rw [h] <;> simp <;> omega

/-- With a success probability at or below zero, no draw from `[0, 1)` can
fall below it, so `intento_usuario` returns 0 (failure). -/
lemma intento_usuario_nonpos (p : ℚ) (u : ℕ → ℚ)
    (hu : ∀ k, 0 ≤ u k) (hp : p ≤ 0) :
    intento_usuario p u = 0 := by
  have h : ∀ k, ¬ u k < p := fun k => not_lt.2 (hp.trans (hu k))
  simp [intento_usuario, h 0, h 1, h 2]

/-- A failing trial consumes all three draws. -/
lemma draws_used_nonpos (p : ℚ) (u : ℕ → ℚ)
    (hu : ∀ k, 0 ≤ u k) (hp : p ≤ 0) :
    draws_used p u = 3 := by
  have h : ∀ k, ¬ u k < p := fun k => not_lt.2 (hp.trans (hu k))
  simp [draws_used, h 0, h 1]

/-- With `p ≤ 0` and nonnegative draws, every trial fails: after `n` trials
the state is `⟨0, n, 3n, 3n⟩`. -/
lemma simulate_nonpos (p : ℚ) (u : ℕ → ℚ)
    (hu : ∀ k, 0 ≤ u k) (hp : p ≤ 0) (n : ℕ) :
    simulate p u n = ⟨0, n, 3 * n, 3 * n⟩ := by
  induction n with
  | zero => simp [simulate]
  | succ k ih =>
    rw [simulate, ih]
    have hu3 : ∀ j, 0 ≤ trialStream u (3 * k) j := fun j => hu _
    have h1 : intento_usuario p (trialStream u (3 * k)) = 0 :=
      intento_usuario_nonpos p _ hu3 hp
    have h2 : draws_used p (trialStream u (3 * k)) = 3 :=
      draws_used_nonpos p _ hu3 hp
    simp only [runTrial, h1, h2, Nat.lt_irrefl, if_false, SimState.mk.injEq, true_and, and_true]
    omega

/-- C1: for maxAttempts `n = 3` and successProbability `p = 0.6`, the
analytic solver (row 0 of `B = N R` and row 0 of `N 1`) returns success
probability exactly `1 - (1-p)^3 = 0.936`, failure probability `0.064`, and
expected attempts exactly `1 + (1-p) + (1-p)^2 = 1.56`. -/
theorem C1_analytic_values :
    prob_exito_teorica p_exito = 1 - (1 - p_exito) ^ 3 ∧
    prob_exito_teorica p_exito = 936 / 1000 ∧
    prob_fallo_teorica p_exito = 64 / 1000 ∧
    intentos_teoricos p_exito = 1 + (1 - p_exito) + (1 - p_exito) ^ 2 ∧
    intentos_teoricos p_exito = 156 / 100 := by
  refine ⟨?_, ?_, ?_, ?_, ?_⟩ <;>
    norm_num [prob_exito_teorica, prob_fallo_teorica, intentos_teoricos,
      absorcion, Nm, Rm, p_exito, Matrix.mul_apply, Fin.sum_univ_three,
      Matrix.vecHead, Matrix.vecTail]

/-- C2: per-trial procedure: the draws are read in order at attempt indices
1..3; the trial ends in Success at the first index whose draw is below `p`,
with no further draws (the cursor advances by exactly that index) and that
index added to the attempts counter; if no draw is below `p` the trial ends
in Failure, consuming all three draws and adding exactly `maxAttempts = 3`
to the attempts counter. -/
theorem C2_per_trial (p : ℚ) (u : ℕ → ℚ) (s : SimState) (r : ℕ)
    (hr : intento_usuario p (trialStream u s.cursor) = r) :
    (0 < r →
      r ≤ 3 ∧
      u (s.cursor + (r - 1)) < p ∧
      (∀ j, j < r - 1 → ¬ u (s.cursor + j) < p) ∧
      runTrial p u s
        = ⟨s.exitos + 1, s.fracasos, s.total_intentos + r, s.cursor + r⟩) ∧
    (r = 0 →
      (∀ j, j < 3 → ¬ u (s.cursor + j) < p) ∧
      runTrial p u s
        = ⟨s.exitos, s.fracasos + 1, s.total_intentos + 3, s.cursor + 3⟩) := by
  simp only [intento_usuario, trialStream] at hr
  by_cases h0 : u (s.cursor + 0) < p
  · simp only [h0, if_true] at hr
    subst hr
    refine ⟨fun _ => ⟨by norm_num, by simpa using h0,
      fun j hj => absurd hj (by omega), ?_⟩, fun h => by omega⟩
    have h0n : u s.cursor < p := by simpa using h0
    simp [runTrial, intento_usuario, draws_used, trialStream, h0n]
  · simp only [h0, if_false] at hr
    by_cases h1 : u (s.cursor + 1) < p
    · simp only [h1, if_true] at hr
      subst hr
      refine ⟨fun _ => ⟨by norm_num, by simpa using h1, ?_, ?_⟩,
        fun h => by omega⟩
      · intro j hj
        interval_cases j
        simpa using h0
      · have h0n : ¬ u s.cursor < p := by simpa using h0
        simp [runTrial, intento_usuario, draws_used, trialStream, h0n, h1]
    · simp only [h1, if_false] at hr
      by_cases h2 : u (s.cursor + 2) < p
      · simp only [h2, if_true] at hr
        subst hr
        refine ⟨fun _ => ⟨by norm_num, by simpa using h2, ?_, ?_⟩,
          fun h => by omega⟩
        · intro j hj
          interval_cases j
          · simpa using h0
          · simpa using h1
        · have h0n : ¬ u s.cursor < p := by simpa using h0
          simp [runTrial, intento_usuario, draws_used, trialStream, h0n, h1, h2]
      · simp only [h2, if_false] at hr
        subst hr
        refine ⟨fun h => absurd h (by omega), fun _ => ⟨?_, ?_⟩⟩
        · intro j hj
          interval_cases j
          · simpa using h0
          · simpa using h1
          · simpa using h2
        · have h0n : ¬ u s.cursor < p := by simpa using h0
          simp [runTrial, intento_usuario, draws_used, trialStream, h0n, h1, h2]

/-- Witness for C2: with `p = 3/5` and every draw `1/2 < 3/5`, the trial
starting from the all-zero state succeeds on the first attempt and the loop
counts one success and one attempt, consuming one draw. -/
theorem C2_witness :
    runTrial (3 / 5) (fun _ => (1 : ℚ) / 2) ⟨0, 0, 0, 0⟩ = ⟨1, 0, 1, 1⟩ :=
  ((C2_per_trial (3 / 5) (fun _ => (1 : ℚ) / 2) ⟨0, 0, 0, 0⟩ 1
    (by norm_num [intento_usuario, trialStream])).1 (by norm_num)).2.2.2

/-- C3: for every valid successProbability `p` in `(0, 1]` and every
maxAttempts `n = m + 1 ≥ 1`, the two analytic absorption probabilities for a
run started in transient state 0 (row 0 of `B = N R`) sum to exactly 1. -/
theorem C3_absorption_sum_one (m : ℕ) (p : ℚ) (hp0 : 0 < p) (hp1 : p ≤ 1) :
    (genN (m + 1) p * genR (m + 1) p) 0 0
      + (genN (m + 1) p * genR (m + 1) p) 0 1 = 1 := by
  rw [genB_zero_zero, genB_zero_one]
  ring

/-- Witness for C3 at the notebook instance `n = 3`, `p = 3/5`. -/
theorem C3_witness :
    (genN 3 (3 / 5) * genR 3 (3 / 5)) 0 0
      + (genN 3 (3 / 5) * genR 3 (3 / 5)) 0 1 = 1 :=
  C3_absorption_sum_one 2 (3 / 5) (by norm_num) (by norm_num)

/-- C4: the simulator is a deterministic function of its explicit random
source: two runs fed pointwise-equal draw streams (as produced by the same
seed) with the same `p` and the same number of trials produce identical
success, failure and cumulative-attempt counters. -/
theorem C4_determinism (p : ℚ) (u v : ℕ → ℚ) (n : ℕ) (h : ∀ k, u k = v k) :
    (simulate p u n).exitos = (simulate p v n).exitos ∧
    (simulate p u n).fracasos = (simulate p v n).fracasos ∧
    (simulate p u n).total_intentos = (simulate p v n).total_intentos := by
  have huv : u = v := funext h
  subst huv
  exact ⟨rfl, rfl, rfl⟩

/-- Witness for C4: two syntactically different but pointwise-equal streams
give the same counters. -/
theorem C4_witness :
    (simulate (3 / 5) (fun _ => (1 : ℚ) / 2) 4).exitos
      = (simulate (3 / 5) (fun _ => (1 : ℚ) / 2 * 1) 4).exitos ∧
    (simulate (3 / 5) (fun _ => (1 : ℚ) / 2) 4).fracasos
      = (simulate (3 / 5) (fun _ => (1 : ℚ) / 2 * 1) 4).fracasos ∧
    (simulate (3 / 5) (fun _ => (1 : ℚ) / 2) 4).total_intentos
      = (simulate (3 / 5) (fun _ => (1 : ℚ) / 2 * 1) 4).total_intentos :=
  C4_determinism (3 / 5) (fun _ => (1 : ℚ) / 2) (fun _ => (1 : ℚ) / 2 * 1) 4
    (fun _ => by norm_num)

/-- C5 counterexample: at successProbability `p = 2`, far outside `(0, 1]`,
no InvalidParameter failure occurs anywhere: the analytic path returns the
numeric value 2 as a success probability together with expected attempts 1,
and the per-trial function returns a numeric success on the first attempt.
The code contains no validation and no error type at all. -/
theorem C5_counterexample :
    prob_exito_teorica 2 = 2 ∧ intentos_teoricos 2 = 1 ∧
    intento_usuario 2 (fun _ => (1 : ℚ) / 2) = 1 := by
  refine ⟨?_, ?_, ?_⟩ <;>
    norm_num [prob_exito_teorica, intentos_teoricos, absorcion, Nm, Rm,
      Matrix.mul_apply, Fin.sum_univ_three, Matrix.vecHead, Matrix.vecTail,
      intento_usuario]

/-- C5 amended: the code performs no input validation: for every rational
successProbability `p`, inside or outside `(0, 1]`, the analytic solver
unconditionally returns the closed-form numeric values and the per-trial
function returns a numeric attempt count of at most 3, instead of failing
with a typed InvalidParameter error. -/
theorem C5_no_validation (p : ℚ) :
    prob_exito_teorica p = p * (1 + (1 - p) + (1 - p) ^ 2) ∧
    prob_fallo_teorica p = (1 - p) ^ 3 ∧
    intentos_teoricos p = 1 + (1 - p) + (1 - p) ^ 2 ∧
    ∀ u : ℕ → ℚ, intento_usuario p u ≤ 3 := by
  refine ⟨?_, ?_, ?_, ?_⟩
  · simp [prob_exito_teorica, absorcion, Nm, Rm, Matrix.mul_apply,
      Fin.sum_univ_three, Matrix.vecHead, Matrix.vecTail]
    ring
  · simp [prob_fallo_teorica, absorcion, Nm, Rm, Matrix.mul_apply,
      Fin.sum_univ_three, Matrix.vecHead, Matrix.vecTail]
    ring
  · simp [intentos_teoricos, Nm, Fin.sum_univ_three, Matrix.vecHead,
      Matrix.vecTail]
  · intro u
    unfold intento_usuario
    split_ifs <;> norm_num

/-- C6: for every valid `p` the matrix `I - Q` built by the analytic solver
is upper-triangular with unit diagonal and invertible: the closed form `Nm`
is a two-sided inverse, so `(I − Q) N = I` holds exactly and the inversion
never reaches the singular branch; in exact rational arithmetic no NaN can
appear. -/
theorem C6_inversion_sound (p : ℚ) (hp0 : 0 < p) (hp1 : p ≤ 1) :
    (∀ i j : Fin 3, (j : ℕ) < (i : ℕ) → (1 - Qm p) i j = 0) ∧
    (∀ i : Fin 3, (1 - Qm p) i i = 1) ∧
    (1 - Qm p) * Nm p = 1 ∧
    Nm p * (1 - Qm p) = 1 ∧
    IsUnit (1 - Qm p) := by
  refine ⟨?_, ?_, one_sub_Qm_mul_Nm p, Nm_mul_one_sub_Qm p,
    ⟨⟨1 - Qm p, Nm p, one_sub_Qm_mul_Nm p, Nm_mul_one_sub_Qm p⟩, rfl⟩⟩
  · intro i j hij
    fin_cases i <;> fin_cases j <;>
      simp_all [Qm, Matrix.sub_apply, Matrix.one_apply, Matrix.vecHead,
        Matrix.vecTail, Fin.ext_iff]
  · intro i
    fin_cases i <;>
      simp [Qm, Matrix.sub_apply, Matrix.one_apply, Matrix.vecHead,
        Matrix.vecTail, Fin.ext_iff]

/-- Witness for C6 at `p = 3/5`: the inversion identity holds. -/
theorem C6_witness : (1 - Qm (3 / 5)) * Nm (3 / 5) = 1 :=
  (C6_inversion_sound (3 / 5) (by norm_num) (by norm_num)).2.2.1

/-- C7: boundary `p = 1`: the analytic solver returns success probability
exactly 1 and expected attempts exactly 1, and every simulated trial whose
first draw lies in `[0, 1)` (hence is `< 1`) succeeds on the first
attempt. -/
theorem C7_boundary_p_one :
    prob_exito_teorica 1 = 1 ∧ intentos_teoricos 1 = 1 ∧
    ∀ u : ℕ → ℚ, u 0 < 1 → intento_usuario 1 u = 1 := by
  refine ⟨?_, ?_, ?_⟩
  · norm_num [prob_exito_teorica, absorcion, Nm, Rm, Matrix.mul_apply,
      Fin.sum_univ_three, Matrix.vecHead, Matrix.vecTail]
  · norm_num [intentos_teoricos, Nm, Fin.sum_univ_three, Matrix.vecHead,
      Matrix.vecTail]
  · intro u h
    simp [intento_usuario, h]

/-- Witness for C7: a concrete first draw in `[0, 1)`. -/
theorem C7_witness : intento_usuario 1 (fun _ => (1 : ℚ) / 2) = 1 :=
  C7_boundary_p_one.2.2 (fun _ => (1 : ℚ) / 2) (by norm_num)

/-- C8: row-stochasticity of the transition structure built by the code: for
every transient state `i` and every valid `p`, the sum of row `i` of `Q`
plus the sum of row `i` of `R` equals exactly 1. -/
theorem C8_rows_sum_one (p : ℚ) (hp0 : 0 < p) (hp1 : p ≤ 1) (i : Fin 3) :
    (∑ j : Fin 3, Qm p i j) + (∑ j : Fin 2, Rm p i j) = 1 := by
  fin_cases i <;>
    simp [Qm, Rm, Fin.sum_univ_three, Fin.sum_univ_two, Matrix.vecHead,
      Matrix.vecTail]

/-- Witness for C8 at `p = 3/5`, state 0. -/
theorem C8_witness :
    (∑ j : Fin 3, Qm (3 / 5) 0 j) + (∑ j : Fin 2, Rm (3 / 5) 0 j) = 1 :=
  C8_rows_sum_one (3 / 5) (by norm_num) (by norm_num) 0

/-- C9: aggregation invariant of the simulation loop: each trial increments
exactly one of the success and failure counters, so after `k` trials
`exitos + fracasos = k`; hence for `k > 0` the empirical success and failure
probabilities sum to exactly 1 as rationals. -/
theorem C9_aggregation (p : ℚ) (u : ℕ → ℚ) (k : ℕ) :
    (simulate p u k).exitos + (simulate p u k).fracasos = k ∧
    (0 < k →
      ((simulate p u k).exitos : ℚ) / k + ((simulate p u k).fracasos : ℚ) / k
        = 1) := by
  have hsum : (simulate p u k).exitos + (simulate p u k).fracasos = k := by
    induction k with
    | zero => rfl
    | succ j ih =>
      rw [simulate, runTrial_counter_sum, ih]
  refine ⟨hsum, fun hk => ?_⟩
  have hk0 : (k : ℚ) ≠ 0 := Nat.cast_ne_zero.2 (by omega)
  rw [div_add_div_same]
  rw [show ((simulate p u k).exitos : ℚ) + ((simulate p u k).fracasos : ℚ)
        = (k : ℚ) from by exact_mod_cast congrArg (Nat.cast : ℕ → ℚ) hsum]
  exact div_self hk0

/-- Witness for C9 with three trials at `p = 3/5`. -/
theorem C9_witness :
    (simulate (3 / 5) (fun _ => (1 : ℚ) / 2) 3).exitos
        + (simulate (3 / 5) (fun _ => (1 : ℚ) / 2) 3).fracasos = 3 ∧
    ((simulate (3 / 5) (fun _ => (1 : ℚ) / 2) 3).exitos : ℚ) / 3
        + ((simulate (3 / 5) (fun _ => (1 : ℚ) / 2) 3).fracasos : ℚ) / 3 = 1 :=
  ⟨(C9_aggregation (3 / 5) (fun _ => (1 : ℚ) / 2) 3).1,
    (C9_aggregation (3 / 5) (fun _ => (1 : ℚ) / 2) 3).2 (by norm_num)⟩

/-- C10: at the public interface, successProbability 0 (or any `p ≤ 0`)
raises no error: a draw in `[0, 1)` is never below `p`, so every trial
returns 0 (Failure); running `n` trials at `p = 0` yields 0 successes, `n`
failures and cumulative attempts exactly `3 n` (empirical mean attempts
exactly 3), and the analytic path computes success probability 0, failure
probability 1 and expected attempts 3. -/
theorem C10_p_zero_behaviour (u : ℕ → ℚ) (hu : ∀ k, 0 ≤ u k) :
    (∀ p : ℚ, p ≤ 0 → intento_usuario p u = 0) ∧
    (∀ n : ℕ, simulate 0 u n = ⟨0, n, 3 * n, 3 * n⟩) ∧
    (∀ n : ℕ, 0 < n → ((simulate 0 u n).total_intentos : ℚ) / n = 3) ∧
    prob_exito_teorica 0 = 0 ∧ prob_fallo_teorica 0 = 1 ∧
    intentos_teoricos 0 = 3 := by
  refine ⟨fun p hp => intento_usuario_nonpos p u hu hp,
    fun n => simulate_nonpos 0 u hu le_rfl n, fun n hn => ?_, ?_, ?_, ?_⟩
  · rw [simulate_nonpos 0 u hu le_rfl n]
    have hn0 : (n : ℚ) ≠ 0 := Nat.cast_ne_zero.2 (by omega)
    show ((3 * n : ℕ) : ℚ) / (n : ℚ) = 3
    push_cast
    field_simp
  · norm_num [prob_exito_teorica, absorcion, Nm, Rm, Matrix.mul_apply,
      Fin.sum_univ_three, Matrix.vecHead, Matrix.vecTail]
  · norm_num [prob_fallo_teorica, absorcion, Nm, Rm, Matrix.mul_apply,
      Fin.sum_univ_three, Matrix.vecHead, Matrix.vecTail]
  · norm_num [intentos_teoricos, Nm, Fin.sum_univ_three, Matrix.vecHead,
      Matrix.vecTail]

/-- Witness for C10: a concrete nonnegative stream; two trials at `p = 0`
give two failures, six attempts, mean attempts exactly 3. -/
theorem C10_witness :
    intento_usuario 0 (fun _ => (1 : ℚ) / 2) = 0 ∧
    simulate 0 (fun _ => (1 : ℚ) / 2) 2 = ⟨0, 2, 6, 6⟩ ∧
    ((simulate 0 (fun _ => (1 : ℚ) / 2) 2).total_intentos : ℚ) / 2 = 3 ∧
    prob_exito_teorica 0 = 0 := by
  have h := C10_p_zero_behaviour (fun _ => (1 : ℚ) / 2) (fun _ => by norm_num)
  exact ⟨h.1 0 le_rfl, h.2.1 2, h.2.2.1 2 (by norm_num), h.2.2.2.1⟩

end RACH
